import Mathlib

/-!
Shallow embedding of the git-arr repository's `git.py` module (the git
command-line wrapper and output-parsing layer), together with theorems
checking spec claims about it.

Python strings are modelled as Lean `String` (sequences of code points);
byte strings as `List Nat` (each entry `< 256`).  Python functions that can
raise are modelled as `Option`-returning functions, `none` standing for an
uncaught exception.
-/

set_option maxHeartbeats 1000000
set_option linter.unusedVariables false

/-- Monadic map over `Option`, modelling a Python loop that raises on the
first failing element (the whole computation fails). -/
def mapMopt (f : α → Option β) : List α → Option (List β)
  | [] => some []
  | a :: as => do
    let b ← f a
    let bs ← mapMopt f as
    pure (b :: bs)

/-- Splits `l` at the first occurrence of the pattern `pat`, returning the
part before and the part after, like Python's `s.split(pat, 1)` when the
separator occurs (two parts); `none` when `pat` does not occur. -/
def splitOnceList (pat : List Char) : List Char → Option (List Char × List Char)
  | [] => if pat = [] then some ([], []) else none
  | c :: rest =>
    if pat.isPrefixOf (c :: rest) then some ([], (c :: rest).drop pat.length)
    else (splitOnceList pat rest).map (fun p => (c :: p.1, p.2))

/-- Python `s.split(sep, 1)` for a string separator, demanding that the
separator occurs (the callers in `git.py` unpack the result into two
variables, which raises `ValueError` when the separator is absent). -/
def pySplit1 (pat : String) (s : String) : Option (String × String) :=
  (splitOnceList pat.data s.data).map (fun p => (p.1.asString, p.2.asString))

/-- Splits a list at every occurrence of the character `c`, like Python's
`s.split(c)` with an explicit one-character separator: the result always has
at least one (possibly empty) part. -/
def splitAllChar (c : Char) : List Char → List (List Char)
  | [] => [[]]
  | x :: xs =>
    if x = c then [] :: splitAllChar c xs
    else
      match splitAllChar c xs with
      | [] => [[x]]
      | h :: t => (x :: h) :: t

/-- Python `s.split(c)` for a one-character separator. -/
def pySplitAll (c : Char) (s : String) : List String :=
  (splitAllChar c s.data).map List.asString

/-- Whitespace characters stripped by Python's `str.strip()` / `str.rstrip()`
(restricted to the ASCII whitespace actually produced by git output). -/
def isPyWs (c : Char) : Bool :=
  c = ' ' || c = '\t' || c = '\n' || c = '\x0d' || c = '\x0b' || c = '\x0c'

/-- Python `s.rstrip()` (no arguments): remove trailing whitespace. -/
def pyRstrip (s : String) : String :=
  ((s.data.reverse.dropWhile isPyWs).reverse).asString

/-- Python `s.rstrip("\n")`: remove trailing newline characters. -/
def pyRstripNl (s : String) : String :=
  ((s.data.reverse.dropWhile (fun c => c = '\n')).reverse).asString

/-- Python `s.replace(a, b)` for one-character pattern and replacement:
every occurrence of the character `a` becomes `b`. -/
def pyReplaceChar (a b : Char) (s : String) : String :=
  (s.data.map (fun c => if c = a then b else c)).asString

/-- Value of a decimal digit character, if it is one. -/
def decDigit (c : Char) : Option Nat :=
  if '0' ≤ c ∧ c ≤ '9' then some (c.toNat - 48) else none

/-- Value of a nonempty all-decimal-digit character list. -/
def digitsVal : List Char → Option Nat
  | [] => none
  | ds =>
    ds.foldl
      (fun acc c =>
        match acc, decDigit c with
        | some n, some d => some (10 * n + d)
        | _, _ => none)
      (some 0)

/-- Python `int(s)` on a string: strip surrounding whitespace, optional sign,
then a nonempty run of decimal digits.  (Underscore digit grouping, accepted
by Python since 3.6, is not modelled; git never emits it.) -/
def pyIntS (s : String) : Option Int :=
  let t := (s.data.dropWhile isPyWs).reverse.dropWhile isPyWs |>.reverse
  match t with
  | '+' :: ds => (digitsVal ds).map Int.ofNat
  | '-' :: ds => (digitsVal ds).map (fun n => -(n : Int))
  | ds => (digitsVal ds).map Int.ofNat

/-- Python `s.rsplit(" ", 2)` unpacked into three variables: split off the
last two space-separated fields, failing (`ValueError`) when the string has
fewer than two spaces. -/
def pyRsplit2 (s : String) : Option (String × String × String) := do
  let (last1, r1) ← splitOnceList [' '] s.data.reverse
  let (last2, r2) ← splitOnceList [' '] r1
  pure (r2.reverse.asString, last2.reverse.asString, last1.reverse.asString)

/-! Python codec models, used by `unquote`:
`str.encode("latin1")`, `bytes.decode("unicode-escape")` and
`bytes.decode("utf8", errors="backslashreplace")`. -/

/-- Python `s.encode("latin1")`: each code point `≤ 255` becomes one byte;
any larger code point raises `UnicodeEncodeError`. -/
def latin1Encode (cs : List Char) : Option (List Nat) :=
  mapMopt (fun c => if c.toNat ≤ 255 then some c.toNat else none) cs

/-- Same latin-1 encoding step, applied to already-numeric code points (the
output of the unicode-escape decoder). -/
def latin1EncodeCps (cps : List Nat) : Option (List Nat) :=
  mapMopt (fun n => if n ≤ 255 then some n else none) cps

/-- Value of an octal digit byte, if it is one. -/
def octDigitB (b : Nat) : Option Nat :=
  if 48 ≤ b ∧ b ≤ 55 then some (b - 48) else none

/-- Value of a hexadecimal digit byte, if it is one. -/
def hexDigitB (b : Nat) : Option Nat :=
  if 48 ≤ b ∧ b ≤ 57 then some (b - 48)
  else if 97 ≤ b ∧ b ≤ 102 then some (b - 87)
  else if 65 ≤ b ∧ b ≤ 70 then some (b - 55)
  else none

/-- Python `bytes.decode("unicode-escape")`: bytes map to the same code
points, except for backslash escapes (`\\`, `\'`, `\"`, `\a`, `\b`, `\f`,
`\n`, `\r`, `\t`, `\v`, up to three octal digits, `\xhh`, `\uhhhh`,
`\Uhhhhhhhh`, and backslash-newline line continuation); an unrecognized
escape keeps the backslash and the following byte; a truncated escape or a
trailing lone backslash raises.  (`\N{name}` escapes are not modelled and
are treated as a failure; git's quoting never produces them.) -/
def uescDecodeF : Nat → List Nat → Option (List Nat)
  | _, [] => some []
  | 0, _ => none
  | _ + 1, [92] => none
  | fuel + 1, 92 :: e :: r =>
    if e = 10 then uescDecodeF fuel r
    else if e = 92 then (uescDecodeF fuel r).map (92 :: ·)
    else if e = 39 then (uescDecodeF fuel r).map (39 :: ·)
    else if e = 34 then (uescDecodeF fuel r).map (34 :: ·)
    else if e = 97 then (uescDecodeF fuel r).map (7 :: ·)
    else if e = 98 then (uescDecodeF fuel r).map (8 :: ·)
    else if e = 102 then (uescDecodeF fuel r).map (12 :: ·)
    else if e = 110 then (uescDecodeF fuel r).map (10 :: ·)
    else if e = 114 then (uescDecodeF fuel r).map (13 :: ·)
    else if e = 116 then (uescDecodeF fuel r).map (9 :: ·)
    else if e = 118 then (uescDecodeF fuel r).map (11 :: ·)
    else if e = 120 then
      match hr : r with
      | h1 :: h2 :: r2 =>
        match hexDigitB h1, hexDigitB h2 with
        | some a, some b => (uescDecodeF fuel r2).map ((16 * a + b) :: ·)
        | _, _ => none
      | _ => none
    else if e = 117 then
      match hr : r with
      | h1 :: h2 :: h3 :: h4 :: r2 =>
        match hexDigitB h1, hexDigitB h2, hexDigitB h3, hexDigitB h4 with
        | some a, some b, some c, some d =>
          (uescDecodeF fuel r2).map ((4096 * a + 256 * b + 16 * c + d) :: ·)
        | _, _, _, _ => none
      | _ => none
    else if e = 85 then
      match hr : r with
      | h1 :: h2 :: h3 :: h4 :: h5 :: h6 :: h7 :: h8 :: r2 =>
        match hexDigitB h1, hexDigitB h2, hexDigitB h3, hexDigitB h4,
              hexDigitB h5, hexDigitB h6, hexDigitB h7, hexDigitB h8 with
        | some a, some b, some c, some d, some a2, some b2, some c2, some d2 =>
          let v := ((((((a * 16 + b) * 16 + c) * 16 + d) * 16 + a2) * 16 + b2)
            * 16 + c2) * 16 + d2
          if v ≤ 0x10FFFF then (uescDecodeF fuel r2).map (v :: ·) else none
        | _, _, _, _, _, _, _, _ => none
      | _ => none
    else if e = 78 then none
    else
      match octDigitB e with
      | some d1 =>
        match hr : r with
        | [] => (uescDecodeF fuel r).map (d1 :: ·)
        | b2 :: r2 =>
          match octDigitB b2 with
          | none => (uescDecodeF fuel r).map (d1 :: ·)
          | some v2 =>
            match hr2 : r2 with
            | [] => (uescDecodeF fuel r2).map ((8 * d1 + v2) :: ·)
            | b3 :: r3 =>
              match octDigitB b3 with
              | none => (uescDecodeF fuel r2).map ((8 * d1 + v2) :: ·)
              | some v3 => (uescDecodeF fuel r3).map ((64 * d1 + 8 * v2 + v3) :: ·)
      | none => (uescDecodeF fuel r).map (fun l => 92 :: e :: l)
  | fuel + 1, b :: rest => (uescDecodeF fuel rest).map (b :: ·)

/-- Python `bytes.decode("unicode-escape")` proper: the fuel argument (one
unit per consumed byte, so the length always suffices) only makes the
recursion structural. -/
def uescDecode (l : List Nat) : Option (List Nat) := uescDecodeF l.length l

/-- Lowercase hexadecimal digit character for a nibble. -/
def hexCharOfNibble (n : Nat) : Char :=
  if n < 10 then Char.ofNat (48 + n) else Char.ofNat (87 + n)

/-- Representation of one undecodable byte under Python's `backslashreplace`
error handler: the four characters `\xhh` (lowercase hex). -/
def byteEscapeChars (b : Nat) : List Char :=
  ['\\', 'x', hexCharOfNibble (b / 16), hexCharOfNibble (b % 16)]

/-- True for a UTF-8 continuation byte. -/
def utf8Cont (b : Nat) : Bool := 128 ≤ b && b ≤ 191

/-- Python `bytes.decode("utf8", errors="backslashreplace")`: standard UTF-8
decoding (rejecting overlong forms, surrogates and values above `0x10FFFF`);
each byte of an invalid maximal subpart is rendered as `\xhh` text instead
of raising. -/
def utf8DecodeBRF : Nat → List Nat → List Char
  | _, [] => []
  | 0, _ => []
  | fuel + 1, b :: rest =>
    if b ≤ 127 then Char.ofNat b :: utf8DecodeBRF fuel rest
    else if 194 ≤ b ∧ b ≤ 223 then
      match hrest : rest with
      | c1 :: r1 =>
        if utf8Cont c1 then
          Char.ofNat ((b - 192) * 64 + (c1 - 128)) :: utf8DecodeBRF fuel r1
        else byteEscapeChars b ++ utf8DecodeBRF fuel rest
      | [] => byteEscapeChars b ++ utf8DecodeBRF fuel rest
    else if 224 ≤ b ∧ b ≤ 239 then
      let lo := if b = 224 then 160 else 128
      let hi := if b = 237 then 159 else 191
      match hrest : rest with
      | c1 :: r1 =>
        if lo ≤ c1 ∧ c1 ≤ hi then
          match hr1 : r1 with
          | c2 :: r2 =>
            if utf8Cont c2 then
              Char.ofNat ((b - 224) * 4096 + (c1 - 128) * 64 + (c2 - 128))
                :: utf8DecodeBRF fuel r2
            else byteEscapeChars b ++ byteEscapeChars c1 ++ utf8DecodeBRF fuel r1
          | [] => byteEscapeChars b ++ byteEscapeChars c1 ++ utf8DecodeBRF fuel r1
        else byteEscapeChars b ++ utf8DecodeBRF fuel rest
      | [] => byteEscapeChars b ++ utf8DecodeBRF fuel rest
    else if 240 ≤ b ∧ b ≤ 244 then
      let lo := if b = 240 then 144 else 128
      let hi := if b = 244 then 143 else 191
      match hrest : rest with
      | c1 :: r1 =>
        if lo ≤ c1 ∧ c1 ≤ hi then
          match hr1 : r1 with
          | c2 :: r2 =>
            if utf8Cont c2 then
              match hr2 : r2 with
              | c3 :: r3 =>
                if utf8Cont c3 then
                  Char.ofNat ((b - 240) * 262144 + (c1 - 128) * 4096
                    + (c2 - 128) * 64 + (c3 - 128)) :: utf8DecodeBRF fuel r3
                else byteEscapeChars b ++ byteEscapeChars c1
                  ++ byteEscapeChars c2 ++ utf8DecodeBRF fuel r2
              | [] => byteEscapeChars b ++ byteEscapeChars c1
                  ++ byteEscapeChars c2 ++ utf8DecodeBRF fuel r2
            else byteEscapeChars b ++ byteEscapeChars c1 ++ utf8DecodeBRF fuel r1
          | [] => byteEscapeChars b ++ byteEscapeChars c1 ++ utf8DecodeBRF fuel r1
        else byteEscapeChars b ++ utf8DecodeBRF fuel rest
      | [] => byteEscapeChars b ++ utf8DecodeBRF fuel rest
    else byteEscapeChars b ++ utf8DecodeBRF fuel rest

/-- Python `bytes.decode("utf8", errors="backslashreplace")` proper: the
fuel argument (one unit per consumed byte) only makes the recursion
structural. -/
def utf8DecodeBR (l : List Nat) : List Char := utf8DecodeBRF l.length l

/-- The quoted branch of `unquote`: the text between the quotes is encoded
to latin-1 bytes, backslash-unescaped, re-encoded to latin-1 and finally
decoded as UTF-8 with `backslashreplace` (`git.py` lines 205-215). -/
def unquoteDecode (inner : List Char) : Option String := do
  let bs ← latin1Encode inner
  let cps ← uescDecode bs
  let bs2 ← latin1EncodeCps cps
  pure (utf8DecodeBR bs2).asString

/-- Model of `git.py` `unquote(s)`: if the first and the last character of
`s` are both a double quote, strip them and decode the escapes; otherwise
return `s` unchanged.  `none` models an uncaught Python exception — in
particular `s[0]` raises `IndexError` on the empty string. -/
def unquote (s : String) : Option String :=
  match s.data with
  | [] => none
  | c :: cs =>
    if c = '"' ∧ cs.getLastD c = '"' then unquoteDecode cs.dropLast
    else some s

/-! Model of `GitCommand` (git.py lines 89-138): the argument builder. -/

/-- Value assigned to a command option: `git.py` callers assign strings and
ints (a `None` assignment is modelled by `Option.none` at the use site). -/
inductive GitVal
  | str (s : String)
  | int (n : Int)
deriving DecidableEq

/-- Python `str(v)` for an option value. -/
def GitVal.toStr : GitVal → String
  | .str s => s
  | .int n => toString n

/-- State of a `GitCommand` builder: the subcommand, the positional argument
list, and the option dict `_kwargs` modelled as an insertion-ordered
association list (Python 3 dicts preserve insertion order; re-assigning an
existing key keeps its position and updates the value). -/
structure GitCommand where
  cmd : String
  args : List String
  kwargs : List (String × Option GitVal)
deriving DecidableEq

/-- Fresh builder, as `GitCommand.__init__` leaves it (empty `_args` and
`_kwargs`; the repository path and stdin/raw plumbing do not affect the
rendered parameter vector and are not modelled). -/
def GitCommand.init (cmd : String) : GitCommand := ⟨cmd, [], []⟩

/-- Ordered-dict insertion: update in place when the key exists, else append
at the end. -/
def setKw : List (String × Option GitVal) → String → Option GitVal →
    List (String × Option GitVal)
  | [], k, v => [(k, v)]
  | (k0, v0) :: rest, k, v =>
    if k0 = k then (k0, v) :: rest else (k0, v0) :: setKw rest k v

/-- Model of `GitCommand.__setattr__` (git.py lines 102-107), non-override
path: replace underscores by hyphens in the attribute name and store the
value in `_kwargs`. -/
def GitCommand.setattr (g : GitCommand) (k : String) (v : Option GitVal) :
    GitCommand :=
  { g with kwargs := setKw g.kwargs (pyReplaceChar '_' '-' k) v }

/-- Model of `GitCommand.arg` (git.py lines 109-111). -/
def GitCommand.addArg (g : GitCommand) (a : String) : GitCommand :=
  { g with args := g.args ++ [a] }

/-- Rendering of one stored option entry by `GitCommand.run`
(git.py lines 129-134). -/
def renderKw (k : String) (v : Option GitVal) : String :=
  let dash := if k.length > 1 then "--" else "-"
  match v with
  | none => dash ++ k
  | some w => dash ++ k ++ "=" ++ w.toStr

/-- Parameter vector built by `GitCommand.run` (git.py lines 125-138) and
handed to the process invoker: the subcommand, then one rendered entry per
option in dict order, then the positional arguments. -/
def GitCommand.runParams (g : GitCommand) : List String :=
  let params := g.kwargs.foldl (fun ps kv => ps ++ [renderKw kv.1 kv.2]) [g.cmd]
  params ++ g.args

/-- One builder interaction: a field-style option assignment or a positional
argument. -/
inductive GitOp
  | set (name : String) (v : Option GitVal)
  | pos (a : String)
deriving DecidableEq

/-- Runs a sequence of builder interactions against a builder state. -/
def applyOps (g : GitCommand) : List GitOp → GitCommand
  | [] => g
  | .set k v :: ops => applyOps (g.setattr k v) ops
  | .pos a :: ops => applyOps (g.addArg a) ops

/-- Stated from the spec's words (claim C8): the rendered text of one
assigned option whose name already has underscores replaced by hyphens —
one leading hyphen for a single-character name and two otherwise, a bare
flag for a null value and `name=value` with the value stringified
otherwise. -/
def specOptionText (k : String) (v : Option GitVal) : String :=
  let pre := if k.length = 1 then "-" else "--"
  match v with
  | none => pre ++ k
  | some w => pre ++ k ++ "=" ++ w.toStr

/-- Stated from the spec's words (claim C8): the options assigned by a
sequence of builder interactions, in assignment order (first assignment
fixes the position, later assignments to the same name update the value),
each name with its underscores replaced by hyphens. -/
def specAssignments (ops : List GitOp) : List (String × Option GitVal) :=
  ops.foldl
    (fun acc op =>
      match op with
      | .set k v => setKw acc (pyReplaceChar '_' '-' k) v
      | .pos _ => acc)
    []

/-- Stated from the spec's words (claim C8): the positional arguments of a
sequence of builder interactions, in call order. -/
def specPositionals (ops : List GitOp) : List String :=
  ops.filterMap (fun op => match op with | .pos a => some a | _ => none)

/-! Model of `Date` (git.py lines 498-518). -/

/-- Model of a `Date` instance.  `utc` holds the UTC instant as seconds
since the epoch (faithful to `datetime.utcfromtimestamp`, which is an
injective function of the epoch), and `localSec` the `local` field,
`utc + timedelta(minutes=tz_sec_offset_min)`, again in seconds.  The
formatted display string is not modelled. -/
structure Date where
  epoch : Int
  tz : String
  utc : Int
  tz_sec_offset_min : Int
  localSec : Int
deriving DecidableEq

/-- Model of `Date.__init__` (git.py lines 501-515): parse the epoch with
`int()`, take `int(tz[1:3])` as hours and `int(tz[4:])` as minutes — note
the code reads the slice from index 4, not 3 — negate when `tz[0]` is a
minus sign, and shift the UTC instant by that many minutes. -/
def Date.make (epoch : String) (tz : String) : Option Date := do
  let ep ← pyIntS epoch
  let hh ← pyIntS ((tz.drop 1).take 2)
  let mm ← pyIntS (tz.drop 4)
  let mag := hh * 60 + mm
  let off := if tz.data.headD ' ' = '-' then -mag else mag
  pure { epoch := ep, tz := tz, utc := ep, tz_sec_offset_min := off,
         localSec := ep + off * 60 }

/-! Model of `Commit` and `Commit.from_str` (git.py lines 390-495). -/

/-- Model of a `Commit` value as constructed by `Commit.__init__`.  The
`_repo` back-reference, the lazily-fetched diff and the `parseaddr`-derived
name/email fields are not modelled (no claim mentions them); all parsed
fields are kept.  `parents` is a `Finset`, the model of the Python `set`
built by `Commit.from_str`. -/
structure Commit where
  id : String
  parents : Finset String
  tree : String
  author : String
  author_epoch : String
  author_tz : String
  committer : String
  committer_epoch : String
  committer_tz : String
  message : String
  subject : String
  body : String
  author_date : Date
  committer_date : Date
deriving DecidableEq

/-- Values collected for key `k` by the `defaultdict(list)` loop of
`Commit.from_str` (git.py lines 464-467), given the already-split header
pairs: the `v` of each `k v` line, in line order. -/
def headerValuesOf (pairs : List (String × String)) (k : String) : List String :=
  (pairs.filter (fun p => p.1 = k)).map (fun p => p.2)

/-- The header/message split of `Commit.from_str` (git.py lines 454-459):
split at the first blank line, or take everything (right-stripped) as the
header with a `"    "` sentinel message when there is none. -/
def splitHeaderMessage (buf : String) : String × String :=
  match pySplit1 "\n\n" buf with
  | some (h, m) => (h, m)
  | none => (pyRstrip buf, "    ")

/-- The message assembled by `Commit.from_str` (git.py lines 478-481): every
line of the raw message loses its first four characters and gains a
trailing newline. -/
def buildMessage (raw : String) : String :=
  (pySplitAll '\n' raw).foldl (fun acc l => acc ++ l.drop 4 ++ "\n") ""

/-- Model of `Commit.from_str` (git.py lines 451-495) combined with the
field computations of `Commit.__init__` (lines 393-430): parse one
NUL-delimited `rev-list --header` record.  `none` models any uncaught
exception (header line without a space, missing `tree`/`author`/`committer`
header, too few fields in the author/committer line, or a malformed
epoch/zone reaching `Date`). -/
def Commit.from_str (buf : String) : Option Commit := do
  let (header, raw_message) := splitHeaderMessage buf
  match pySplitAll '\n' header with
  | [] => none
  | commit_id :: header_lines => do
    let pairs ← mapMopt (pySplit1 " ") header_lines
    let tree ← (headerValuesOf pairs "tree").head?
    let parents := headerValuesOf pairs "parent"
    let authorhdr ← (headerValuesOf pairs "author").head?
    let (author, author_epoch, author_tz) ← pyRsplit2 authorhdr
    let committerhdr ← (headerValuesOf pairs "committer").head?
    let (committer, committer_epoch, committer_tz) ← pyRsplit2 committerhdr
    let message := buildMessage raw_message
    let (subject, body) ← pySplit1 "\n" message
    let author_date ← Date.make author_epoch author_tz
    let committer_date ← Date.make committer_epoch committer_tz
    pure { id := commit_id, parents := parents.toFinset, tree := tree,
           author := author, author_epoch := author_epoch,
           author_tz := author_tz, committer := committer,
           committer_epoch := committer_epoch, committer_tz := committer_tz,
           message := message, subject := subject, body := body,
           author_date := author_date, committer_date := committer_date }

/-- The ordered list of `parent` header values of a record, read directly
from the record text: the order in which the parent header lines appear. -/
def parentHeaderValues (buf : String) : Option (List String) :=
  match pySplitAll '\n' (splitHeaderMessage buf).1 with
  | [] => none
  | _ :: header_lines => do
    let pairs ← mapMopt (pySplit1 " ") header_lines
    pure (headerValuesOf pairs "parent")

/-! Model of `Repo.commits` (git.py lines 290-323): the paged commit query.
The subprocess is abstracted as the list of text lines the loop iterates
over; `limit` only shapes the stream (`--max-count=limit+offset`) and does
not appear in the fold itself. -/

/-- The NUL string used as the record separator. -/
def nulStr : String := "\x00"

/-- The fold of `Repo.commits` (git.py lines 301-323).  `buf` is
`info_buffer`, `count` the number of records seen, `acc` the commit list so
far; a line containing a NUL closes the current record at the first NUL
(`l.split("\0", 1)`), and the record is parsed into a commit only when its
ordinal exceeds `offset`.  `none` models an uncaught parse exception. -/
def commitsGo (offset : Nat) :
    String → Nat → List Commit → List String → Option (List Commit)
  | buf, count, acc, [] =>
    if buf ≠ "" then
      if count + 1 > offset then do
        let c ← Commit.from_str buf
        pure (acc ++ [c])
      else pure acc
    else pure acc
  | buf, count, acc, l :: ls =>
    match pySplit1 nulStr l with
    | some (pre, post) =>
      if count + 1 > offset then
        match Commit.from_str (buf ++ pre) with
        | some c => commitsGo offset post (count + 1) (acc ++ [c]) ls
        | none => none
      else commitsGo offset post (count + 1) acc ls
    | none => commitsGo offset (buf ++ l) count acc ls

/-- Model of `Repo.commits(ref, limit, offset)` applied to the buffered
stream `lines`. -/
def Repo.commits (lines : List String) (offset : Nat) : Option (List Commit) :=
  commitsGo offset "" 0 [] lines

/-- The records delimited by the stream, extracted with the same splitting
discipline as the fold (first NUL of each line closes a record; a nonempty
trailing buffer is a final record). -/
def recordsGo : String → List String → List String
  | buf, [] => if buf ≠ "" then [buf] else []
  | buf, l :: ls =>
    match pySplit1 nulStr l with
    | some (pre, post) => (buf ++ pre) :: recordsGo post ls
    | none => recordsGo (buf ++ l) ls

/-- The records of a buffered stream. -/
def streamRecords (lines : List String) : List String := recordsGo "" lines

/-- The contents of `info_buffer` when the line loop ends: the text of the
final record when the stream does not end in a NUL, empty otherwise. -/
def trailingBuf : String → List String → String
  | buf, [] => buf
  | buf, l :: ls =>
    match pySplit1 nulStr l with
    | some (_, post) => trailingBuf post ls
    | none => trailingBuf (buf ++ l) ls

/-- Stated from the claim's words (claim C3): parse every record of the
buffered stream — the first `offset` ones included — and return all but the
first `offset` resulting commits in stream order. -/
def commitsClaimC3 (lines : List String) (offset : Nat) :
    Option (List Commit) :=
  (mapMopt Commit.from_str (streamRecords lines)).map (fun cs => cs.drop offset)

/-! Model of `Diff` and `Diff.from_str` (git.py lines 521-561). -/

/-- Model of a `Diff` value: the reference id the diff refers to (`None`
for an empty stream), the `(added, deleted, filename)` change records of
the numstat section (the filename as the raw string wrapped by `smstr`),
and the verbatim body. -/
structure Diff where
  ref : Option String
  changes : List (Int × Int × String)
  body : String
deriving DecidableEq

/-- One numstat line of `Diff.from_str` (git.py lines 549-554): strip the
trailing newline, split on the first two tabs, replace `-` by `0` in the
counts, parse them as ints, and dequote the filename. -/
def parseNumstatLine (l : String) : Option (Int × Int × String) := do
  let l' := pyRstripNl l
  let (added, r) ← pySplit1 "\t" l'
  let (deleted, fname) ← pySplit1 "\t" r
  let a ← pyIntS (pyReplaceChar '-' '0' added)
  let d ← pyIntS (pyReplaceChar '-' '0' deleted)
  let f ← unquote fname
  pure (a, d, f)

/-- The numstat loop of `Diff.from_str` (git.py lines 546-555): consume
lines until a line that is exactly `"\n"`, parsing each; running out of
lines models the uncaught `StopIteration` of `next(lines)`. -/
def parseNumstat : List String → Option (List (Int × Int × String) × List String)
  | [] => none
  | l :: rest =>
    if l = "\n" then some ([], rest)
    else do
      let c ← parseNumstatLine l
      let (cs, body) ← parseNumstat rest
      pure (c :: cs, body)

/-- Model of `Diff.from_str` (git.py lines 535-561) on the buffered list of
stream lines: an empty stream yields the `Diff(None, [], "")` no-diff
value; otherwise the first line is the reference id, then numstat records
until a blank line, then the verbatim body. -/
def Diff.from_str (lines : List String) : Option Diff :=
  match lines with
  | [] => some { ref := none, changes := [], body := "" }
  | ref_id :: rest => do
    let (changes, bodyLines) ← parseNumstat rest
    pure { ref := some ref_id, changes := changes,
           body := String.join bodyLines }

/-! Model of `Repo.blob` (git.py lines 360-376) and `Blob` (lines 610-621):
the size-prefixed object-retrieval protocol, at the byte level. -/

/-- Model of a `Blob`: the raw byte payload. -/
structure Blob where
  raw_content : List Nat
deriving DecidableEq

/-- Python `stream.readline()` on a binary stream: the bytes up to and
including the first newline byte, or everything when there is none; also
returns the remainder of the stream. -/
def readLineB : List Nat → List Nat × List Nat
  | [] => ([], [])
  | b :: rest =>
    if b = 10 then ([10], rest)
    else
      let (h, r) := readLineB rest
      (b :: h, r)

/-- Python `bytes.strip()`: remove leading and trailing ASCII whitespace
bytes. -/
def bstrip (l : List Nat) : List Nat :=
  let ws : Nat → Bool := fun b => b = 32 || b = 9 || b = 10 || b = 13 || b = 11 || b = 12
  (l.dropWhile ws).reverse.dropWhile ws |>.reverse

/-- The byte string `b"missing"`. -/
def missingBytes : List Nat := [109, 105, 115, 115, 105, 110, 103]

/-- Python `int(b)` on a byte string: strip whitespace, optional sign, then
a nonempty run of ASCII decimal digits. -/
def pyIntB (l : List Nat) : Option Int :=
  let digitsValB : List Nat → Option Nat := fun ds =>
    match ds with
    | [] => none
    | _ =>
      ds.foldl
        (fun acc b =>
          match acc with
          | some n => if 48 ≤ b ∧ b ≤ 57 then some (10 * n + (b - 48)) else none
          | none => none)
        (some 0)
  match bstrip l with
  | 43 :: ds => (digitsValB ds).map Int.ofNat
  | 45 :: ds => (digitsValB ds).map (fun n => -(n : Int))
  | ds => (digitsValB ds).map Int.ofNat

/-- Python `bs[:n]` for an `int` bound: the first `n` bytes when `n ≥ 0`,
all but the last `|n|` bytes when `n < 0`. -/
def pySliceTo (l : List Nat) (n : Int) : List Nat :=
  if 0 ≤ n then l.take n.toNat else l.take (l.length - (-n).toNat)

/-- Model of `Repo.blob` (git.py lines 360-376) applied to the raw response
stream of `cat-file --batch="%(objectsize)"`: read the header line; an empty
header or one whose stripped form ends in `missing` yields the absent
result; otherwise the payload is the announced number of bytes of the rest
of the stream.  The outer `Option` models an uncaught exception (a header
that `int()` rejects); the inner one is the absent result (`return None`). -/
def Repo.blob (out : List Nat) : Option (Option Blob) :=
  let (head, rest) := readLineB out
  if head = [] ∨ missingBytes.isSuffixOf (bstrip head) then some none
  else
    match pyIntB head with
    | none => none
    | some n => some (some { raw_content := pySliceTo rest n })

/-! Theorems for the spec claims. -/

/-- The code's wrapped-in-quotes test (git.py line 196), as a predicate on
the input: first and last character are both a double quote; for a
one-character string the first character is also the last. -/
def wrappedInQuotes (s : String) : Bool :=
  match s.data with
  | [] => false
  | c :: cs => c == '"' && cs.getLastD c == '"'

/-- C6: for the empty diff input stream, `Diff.from_str` returns a `Diff`
whose reference is `none`, whose change list is empty and whose body is the
empty string, rather than failing. -/
theorem c6_diff_empty_stream :
    Diff.from_str [] = some { ref := none, changes := [], body := "" } := rfl

/-- C10: on the one-character input consisting of a single double quote, the
wrapped-in-quotes test passes (the first and the last character coincide),
the lone quote is stripped, and the empty remainder decodes to the empty
string. -/
theorem c10_unquote_lone_quote :
    wrappedInQuotes "\"" = true ∧ unquote "\"" = some "" := by
  decide

/-- C1 (failing input): for zone string `+0530` the code parses the minutes
field as `int(tz[4:])`, the final digit only, so the offset comes out as
`300` minutes and the local instant is shifted by `300 * 60` seconds — while
the claim's `sign*(60*HH + MM)` demands `330`.  (For zones whose minutes
field is `00`, such as `-0800`, the slip is invisible.) -/
theorem c1_date_offset_bug :
    (Date.make "0" "+0530").map (fun d => (d.tz_sec_offset_min, d.localSec))
        = some (300, 300 * 60) ∧
      (5 * 60 + 30 : Int) = 330 ∧ ((300 : Int) ≠ 330) := by decide

/-- C5 (counterexample): the empty string is not wrapped in quotes, yet
`unquote` does not return it unchanged — `s[0]` raises `IndexError`, so the
result is an exception (`none`), not `some ""`. -/
theorem c5_counterexample :
    wrappedInQuotes "" = false ∧ unquote "" ≠ some "" := by decide

/-- C5 (amended): for every NONEMPTY string that is not wrapped in a
matching pair of double quotes (first and last character both `"`),
`unquote` returns it unchanged. -/
theorem c5_unquote_unwrapped_id :
    ∀ s : String, s ≠ "" → wrappedInQuotes s = false → unquote s = some s := by
  intro s hne hw
  unfold wrappedInQuotes at hw
  unfold unquote
  split
  · next heq => exact absurd (String.ext heq) hne
  · next c cs heq =>
    rw [heq] at hw
    simp only [Bool.and_eq_false_iff, beq_eq_false_iff_ne, ne_eq] at hw
    rw [if_neg]
    intro hcontra
    rcases hw with h | h
    · exact h hcontra.1
    · exact h hcontra.2

/-- C5 (witness): a concrete unwrapped string is returned unchanged. -/
theorem c5_witness : unquote "a b.txt" = some "a b.txt" :=
  c5_unquote_unwrapped_id "a b.txt" (by decide) (by decide)

/-- C4: a blob fetch is absent (`some none` — not an error, not an empty
blob) exactly when the response header line is empty or its stripped form
ends with the `missing` marker; otherwise, whenever the header parses as a
byte count `n` and the stream carries at least `n` further bytes, the
returned `Blob`'s raw payload is exactly those first `n` bytes — whatever
bytes (NUL, newline, ...) they are. -/
theorem c4_blob_protocol (out : List Nat) :
    (Repo.blob out = some none ↔
      (readLineB out).1 = [] ∨ missingBytes.isSuffixOf (bstrip (readLineB out).1)) ∧
    (∀ n : Nat,
      pyIntB (readLineB out).1 = some (n : Int) →
      n ≤ (readLineB out).2.length →
      ¬((readLineB out).1 = [] ∨ missingBytes.isSuffixOf (bstrip (readLineB out).1)) →
      Repo.blob out = some (some ⟨(readLineB out).2.take n⟩) ∧
        ((readLineB out).2.take n).length = n) := by
  rcases hrl : readLineB out with ⟨head, rest⟩
  constructor
  · unfold Repo.blob
    rw [hrl]
    show (if head = [] ∨ missingBytes.isSuffixOf (bstrip head) then some none
        else match pyIntB head with
          | none => none
          | some n => some (some ({ raw_content := pySliceTo rest n } : Blob))) =
        some none ↔
      head = [] ∨ missingBytes.isSuffixOf (bstrip head)
    by_cases hcond : head = [] ∨ missingBytes.isSuffixOf (bstrip head)
    · rw [if_pos hcond]
      exact iff_of_true rfl hcond
    · refine iff_of_false ?_ hcond
      rw [if_neg hcond]
      cases hint : pyIntB head with
      | none => simp
      | some v => simp
  · intro n hint hlen hcond
    simp only [hrl] at hint hlen hcond
    have hslice : pySliceTo rest ((n : Nat) : Int) = rest.take n := by
      unfold pySliceTo
      rw [if_pos (Int.natCast_nonneg n), Int.toNat_natCast]
    constructor
    · unfold Repo.blob
      rw [hrl]
      show (if head = [] ∨ missingBytes.isSuffixOf (bstrip head) then some none
          else match pyIntB head with
            | none => none
            | some n => some (some ({ raw_content := pySliceTo rest n } : Blob))) =
        some (some ({ raw_content := rest.take n } : Blob))
      rw [if_neg hcond, hint]
      show some (some ({ raw_content := pySliceTo rest ((n : Nat) : Int) } : Blob)) =
        some (some ({ raw_content := rest.take n } : Blob))
      rw [hslice]
    · show (rest.take n).length = n
      rw [List.length_take]
      omega

/-- C4 (witness): a stream announcing two bytes yields a blob of exactly the
two bytes NUL and newline; a stream whose header ends in `missing` yields
the absent result. -/
theorem c4_witness :
    Repo.blob [50, 10, 0, 10, 99] = some (some ⟨[0, 10]⟩) ∧
    Repo.blob [97, 32, 109, 105, 115, 115, 105, 110, 103, 10, 53] = some none := by
  constructor
  · exact (((c4_blob_protocol [50, 10, 0, 10, 99]).2) 2 (by decide) (by decide)
      (by decide)).1
  · exact (c4_blob_protocol [97, 32, 109, 105, 115, 115, 105, 110, 103, 10, 53]).1.mpr
      (by decide)

/-- A successful `splitOnceList` decomposes its input as
before ++ pattern ++ after. -/
theorem splitOnceList_eq {pat : List Char} :
    ∀ {l a b : List Char}, splitOnceList pat l = some (a, b) →
      l = a ++ pat ++ b := by
  intro l
  induction l with
  | nil =>
    intro a b h
    unfold splitOnceList at h
    split at h
    · next hp =>
      obtain ⟨ha, hb⟩ := Prod.mk.injEq .. ▸ Option.some.injEq .. ▸ h
      subst hp; simp [← ha, ← hb]
    · exact absurd h (by simp)
  | cons c rest ih =>
    intro a b h
    unfold splitOnceList at h
    split at h
    · next hp =>
      obtain ⟨t, ht⟩ := List.isPrefixOf_iff_prefix.mp hp
      obtain ⟨ha, hb⟩ := Prod.mk.injEq .. ▸ Option.some.injEq .. ▸ h
      subst ha
      rw [← hb, ← ht, List.nil_append, List.drop_left]
    · next hp =>
      rw [Option.map_eq_some'] at h
      obtain ⟨p, hps, heq⟩ := h
      obtain ⟨ha, hb⟩ := Prod.mk.injEq .. ▸ heq
      rw [← ha, ← hb]
      rw [ih hps]
      rfl

/-- Unfolding of `String.append` at the `data` level. -/
theorem strData_append (a b : String) : (a ++ b).data = a.data ++ b.data := rfl

/-- A successful `pySplit1` decomposes its input string as
before ++ separator ++ after. -/
theorem pySplit1_eq {pat s a b : String} (h : pySplit1 pat s = some (a, b)) :
    s = a ++ pat ++ b := by
  unfold pySplit1 at h
  rw [Option.map_eq_some'] at h
  obtain ⟨p, hps, heq⟩ := h
  obtain ⟨ha, hb⟩ := Prod.mk.injEq .. ▸ heq
  apply String.ext
  rw [show (a ++ pat ++ b).data = a.data ++ pat.data ++ b.data from rfl]
  rw [← ha, ← hb]
  exact splitOnceList_eq hps

/-- C7: every commit constructed by the parser satisfies
`subject ++ "\n" ++ body = message`, and its message is nonempty (a record
with no message body gets the `"    "` sentinel, which becomes the
message `"\n"`). -/
theorem c7_subject_body_message :
    ∀ buf c, Commit.from_str buf = some c →
      c.subject ++ "\n" ++ c.body = c.message ∧ c.message ≠ "" := by
  intro buf c h
  unfold Commit.from_str at h
  rcases hsm : splitHeaderMessage buf with ⟨header, raw⟩
  rw [hsm] at h
  dsimp only at h
  cases hsp : pySplitAll '\n' header with
  | nil => rw [hsp] at h; simp at h
  | cons cid rest =>
    rw [hsp] at h
    simp only [bind, Option.bind_eq_some, Option.pure_def,
      Option.some.injEq] at h
    obtain ⟨pairs, hpairs, h⟩ := h
    obtain ⟨tree, htree, h⟩ := h
    obtain ⟨ah, hah, h⟩ := h
    obtain ⟨⟨auth, aep, atz⟩, hrs, h⟩ := h
    obtain ⟨ch, hch, h⟩ := h
    obtain ⟨⟨com, cep, ctz⟩, hcrs, h⟩ := h
    obtain ⟨⟨subj, bdy⟩, hsb, h⟩ := h
    obtain ⟨ad, had, h⟩ := h
    obtain ⟨cd, hcd, h⟩ := h
    subst h
    have heq := pySplit1_eq hsb
    constructor
    · exact heq.symm
    · intro hemp
      have hemp' : buildMessage raw = "" := hemp
      have hcons : (buildMessage raw).data = subj.data ++ '\n' :: bdy.data := by
        rw [heq, strData_append, strData_append]
        rw [show ("\n" : String).data = ['\n'] from by decide]
        simp
      rw [hemp'] at hcons
      simp at hcons

/-- Fallback `Commit` value, used only to state closed corollaries about
concrete parses. -/
def commitFallback : Commit :=
  { id := "", parents := ∅, tree := "", author := "", author_epoch := "",
    author_tz := "", committer := "", committer_epoch := "",
    committer_tz := "", message := "", subject := "", body := "",
    author_date := ⟨0, "", 0, 0, 0⟩, committer_date := ⟨0, "", 0, 0, 0⟩ }

/-- A concrete record with headers but no message section. -/
def noBodyRecord : String :=
  "c1\ntree t\nauthor A <a@b> 0 +0000\ncommitter A <a@b> 0 +0000"

/-- C7 (witness): the no-body record parses, satisfies the invariant, and
its message is the nonempty sentinel-derived `"\n"`. -/
theorem c7_witness :
    (((Commit.from_str noBodyRecord).getD commitFallback).subject ++ "\n" ++
        ((Commit.from_str noBodyRecord).getD commitFallback).body =
      ((Commit.from_str noBodyRecord).getD commitFallback).message) ∧
    ((Commit.from_str noBodyRecord).getD commitFallback).message ≠ "" :=
  c7_subject_body_message noBodyRecord
    ((Commit.from_str noBodyRecord).getD commitFallback) (by decide)

/-- Every successful parse relates the commit's `parents` field to the
ordered list of `parent` header values of the record: the field is that
list's underlying (unordered, deduplicated) finite set. -/
theorem from_str_parents :
    ∀ buf c, Commit.from_str buf = some c →
      ∃ ps, parentHeaderValues buf = some ps ∧ c.parents = ps.toFinset := by
  intro buf c h
  unfold Commit.from_str at h
  rcases hsm : splitHeaderMessage buf with ⟨header, raw⟩
  rw [hsm] at h
  dsimp only at h
  cases hsp : pySplitAll '\n' header with
  | nil => rw [hsp] at h; simp at h
  | cons cid rest =>
    rw [hsp] at h
    simp only [bind, Option.bind_eq_some, Option.pure_def,
      Option.some.injEq] at h
    obtain ⟨pairs, hpairs, h⟩ := h
    obtain ⟨tree, htree, h⟩ := h
    obtain ⟨ah, hah, h⟩ := h
    obtain ⟨⟨auth, aep, atz⟩, hrs, h⟩ := h
    obtain ⟨ch, hch, h⟩ := h
    obtain ⟨⟨com, cep, ctz⟩, hcrs, h⟩ := h
    obtain ⟨⟨subj, bdy⟩, hsb, h⟩ := h
    obtain ⟨ad, had, h⟩ := h
    obtain ⟨cd, hcd, h⟩ := h
    subst h
    refine ⟨headerValuesOf pairs "parent", ?_, rfl⟩
    unfold parentHeaderValues
    rw [hsm]
    dsimp only
    rw [hsp]
    dsimp only
    rw [hpairs]
    rfl

/-- A concrete two-parent record, parents in order `p`, `q`. -/
def parentsRecordA : String :=
  "c\ntree t\nparent p\nparent q\nauthor A <a@b> 0 +0000\ncommitter A <a@b> 0 +0000\n\n    m"

/-- The same record with the two parent header lines swapped: `q`, `p`. -/
def parentsRecordB : String :=
  "c\ntree t\nparent q\nparent p\nauthor A <a@b> 0 +0000\ncommitter A <a@b> 0 +0000\n\n    m"

/-- C2 (counterexample): two records that differ only in the order of their
parent header lines parse to commits with EQUAL `parents` collections, even
though their ordered parent header lists differ; hence the `parents`
collection of a parsed commit cannot preserve the order in which the parent
header lines appeared (any order read off the collection is the same for
both records).  The Python code builds `parents` with `set(...)`. -/
theorem c2_counterexample :
    parentHeaderValues parentsRecordA = some ["p", "q"] ∧
    parentHeaderValues parentsRecordB = some ["q", "p"] ∧
    (Commit.from_str parentsRecordA).map (fun c => c.parents)
      = (Commit.from_str parentsRecordB).map (fun c => c.parents) ∧
    (["p", "q"] : List String) ≠ ["q", "p"] := by
  refine ⟨by decide, by decide, ?_, by decide⟩
  obtain ⟨psA, hpsA, hparA⟩ := from_str_parents parentsRecordA
    ((Commit.from_str parentsRecordA).getD commitFallback) (by decide)
  obtain ⟨psB, hpsB, hparB⟩ := from_str_parents parentsRecordB
    ((Commit.from_str parentsRecordB).getD commitFallback) (by decide)
  obtain rfl := Option.some.inj (hpsA.symm.trans
    (by decide : parentHeaderValues parentsRecordA = some ["p", "q"]))
  obtain rfl := Option.some.inj (hpsB.symm.trans
    (by decide : parentHeaderValues parentsRecordB = some ["q", "p"]))
  rw [show Commit.from_str parentsRecordA
      = some ((Commit.from_str parentsRecordA).getD commitFallback) from by decide]
  rw [show Commit.from_str parentsRecordB
      = some ((Commit.from_str parentsRecordB).getD commitFallback) from by decide]
  simp only [Option.map_some']
  rw [hparA, hparB]
  congr 1
  ext a
  simp
  tauto

/-- C2 (amended): for every parsed commit record, the `parents` collection
is the unordered deduplicated set of the record's parent header values —
it contains each distinct parent id exactly once (multiplicity one in the
underlying multiset), but does not record the order in which the parent
header lines appeared. -/
theorem c2_parents_dedup_unordered :
    ∀ buf c ps, Commit.from_str buf = some c →
      parentHeaderValues buf = some ps →
      c.parents = ps.toFinset ∧
      ∀ p, (p ∈ c.parents ↔ p ∈ ps) ∧
        c.parents.val.count p = (if p ∈ ps then 1 else 0) := by
  intro buf c ps h hps
  obtain ⟨ps', hps', hpar⟩ := from_str_parents buf c h
  rw [hps] at hps'
  obtain rfl := Option.some.inj hps'
  refine ⟨hpar, fun p => ⟨?_, ?_⟩⟩
  · rw [hpar]
    exact List.mem_toFinset
  · rw [hpar]
    by_cases hmem : p ∈ ps
    · rw [if_pos hmem]
      apply Multiset.count_eq_one_of_mem ps.toFinset.nodup
      simpa using hmem
    · rw [if_neg hmem]
      apply Multiset.count_eq_zero_of_not_mem
      simpa using hmem

/-- C2 (witness): the two-parent record instantiates the amended claim; its
parents set is `{p, q}` with each id counted once. -/
theorem c2_witness :
    ((Commit.from_str parentsRecordA).getD commitFallback).parents
        = (["p", "q"] : List String).toFinset ∧
    ∀ p, (p ∈ ((Commit.from_str parentsRecordA).getD commitFallback).parents
        ↔ p ∈ (["p", "q"] : List String)) ∧
      ((Commit.from_str parentsRecordA).getD commitFallback).parents.val.count p
        = (if p ∈ (["p", "q"] : List String) then 1 else 0) :=
  c2_parents_dedup_unordered parentsRecordA
    ((Commit.from_str parentsRecordA).getD commitFallback) ["p", "q"]
    (by decide) (by decide)

/-- The paging fold of `Repo.commits`, related to the record extraction: the
fold yields exactly the commits of the records beyond the skip budget
`offset - count`, appended to the accumulator, and fails exactly when one of
those (and only those) records fails to parse. -/
theorem commitsGo_eq (offset : Nat) :
    ∀ ls buf count acc,
      commitsGo offset buf count acc ls
        = (mapMopt Commit.from_str ((recordsGo buf ls).drop (offset - count))).map
            (fun cs => acc ++ cs) := by
  intro ls
  induction ls with
  | nil =>
    intro buf count acc
    unfold commitsGo recordsGo
    by_cases hb : buf = ""
    · simp [hb, mapMopt]
    · rw [if_pos hb, if_pos hb]
      by_cases hc : count + 1 > offset
      · rw [if_pos hc, show offset - count = 0 from by omega]
        cases hfs : Commit.from_str buf with
        | none => simp [mapMopt, hfs]
        | some c => simp [mapMopt, hfs]
      · rw [if_neg hc, show offset - count = (offset - (count + 1)) + 1 from by omega]
        simp [mapMopt]
  | cons l ls ih =>
    intro buf count acc
    unfold commitsGo recordsGo
    cases hsp : pySplit1 nulStr l with
    | none =>
      dsimp only
      exact ih (buf ++ l) count acc
    | some p =>
      obtain ⟨pre, post⟩ := p
      dsimp only
      by_cases hc : count + 1 > offset
      · rw [if_pos hc, show offset - count = 0 from by omega]
        cases hfs : Commit.from_str (buf ++ pre) with
        | none => simp [mapMopt, hfs]
        | some c =>
          dsimp only
          rw [ih post (count + 1) (acc ++ [c]),
            show offset - (count + 1) = 0 from by omega]
          simp only [List.drop_zero, mapMopt, hfs, bind, Option.some_bind]
          cases hm : mapMopt Commit.from_str (recordsGo post ls) with
          | none => simp
          | some cs => simp
      · rw [if_neg hc, ih post (count + 1) acc,
          show offset - count = (offset - (count + 1)) + 1 from by omega,
          List.drop_succ_cons]

/-- `Repo.commits` equals: extract the records, drop the first `offset` of
them unparsed, then parse the remainder in stream order. -/
theorem commits_eq_dropped_records (lines : List String) (offset : Nat) :
    Repo.commits lines offset
      = mapMopt Commit.from_str ((streamRecords lines).drop offset) := by
  unfold Repo.commits streamRecords
  rw [commitsGo_eq, Nat.sub_zero]
  cases hm : mapMopt Commit.from_str ((recordsGo "" lines).drop offset) with
  | none => simp
  | some cs => simp

/-- A stream whose first record is malformed (`"bad"` parses to no commit)
followed by one well-formed record. -/
def c3Lines : List String := ["bad\x00" ++ noBodyRecord]

/-- C3 (counterexample): with skip offset 1 the code succeeds on `c3Lines` —
the malformed first record is discarded WITHOUT being parsed — while the
claim's reading (parse every record of the stream, discarding only the
construction results of the first `offset`) fails on the malformed first
record and yields no result at all.  So skipped records are not parsed. -/
theorem c3_counterexample :
    (Repo.commits c3Lines 1).isSome = true ∧
    commitsClaimC3 c3Lines 1 = none ∧
    Repo.commits c3Lines 1 ≠ commitsClaimC3 c3Lines 1 := by
  refine ⟨by decide, by decide, fun heq => ?_⟩
  have h1 : (Repo.commits c3Lines 1).isSome = true := by decide
  rw [heq, show commitsClaimC3 c3Lines 1 = none from by decide] at h1
  simp at h1

/-- C3 (amended): the paged commit query discards the first `offset`
records at the record level without constructing commits from them (they
are consumed from the stream but not parsed), parses every remaining
record, and returns those commits in stream order. -/
theorem c3_commits_drop_then_parse :
    ∀ lines offset,
      Repo.commits lines offset
        = mapMopt Commit.from_str ((streamRecords lines).drop offset) :=
  fun lines offset => commits_eq_dropped_records lines offset

/-- `mapMopt` sends `[]` to `some []` and only to it. -/
theorem mapMopt_nil_iff {f : α → Option β} :
    ∀ {l : List α} {l' : List β}, mapMopt f l = some l' → (l' = [] ↔ l = []) := by
  intro l l' h
  cases l with
  | nil =>
    unfold mapMopt at h
    obtain rfl := Option.some.inj h
    simp
  | cons x xs =>
    simp only [mapMopt, bind, Option.bind_eq_some, Option.some.injEq] at h
    obtain ⟨b, hb, bs, hbs, hl'⟩ := h
    obtain rfl := Option.some.inj hl'
    simp

/-- A successful `mapMopt` maps the last element to the last result. -/
theorem mapMopt_getLast {f : α → Option β} :
    ∀ {l : List α} {l' : List β} {a : α},
      mapMopt f l = some l' → l.getLast? = some a → l'.getLast? = f a := by
  intro l
  induction l with
  | nil => intro l' a h ha; simp at ha
  | cons x xs ih =>
    intro l' a h ha
    simp only [mapMopt, bind, Option.bind_eq_some, Option.some.injEq] at h
    obtain ⟨b, hb, bs, hbs, hl'⟩ := h
    cases hxs : xs with
    | nil =>
      subst hxs
      unfold mapMopt at hbs
      obtain rfl := Option.some.inj hbs
      obtain rfl := Option.some.inj hl'
      simp only [List.getLast?_singleton, Option.some.injEq] at ha
      rw [List.getLast?_singleton, ← ha, hb]
    | cons y ys =>
      subst hxs
      rw [List.getLast?_cons_cons] at ha
      have hbs' : bs ≠ [] := by
        intro hnil
        have := (mapMopt_nil_iff hbs).mp hnil
        simp at this
      obtain rfl := Option.some.inj hl'
      cases bs with
      | nil => exact absurd rfl hbs'
      | cons b0 bs0 =>
        rw [List.getLast?_cons_cons]
        exact ih hbs ha

/-- Dropping fewer elements than the length keeps the last element. -/
theorem getLast?_drop_of_lt :
    ∀ {l : List α} {n : Nat}, n < l.length → (l.drop n).getLast? = l.getLast? := by
  intro l
  induction l with
  | nil => intro n h; simp at h
  | cons x xs ih =>
    intro n h
    cases n with
    | zero => simp
    | succ m =>
      rw [List.drop_succ_cons]
      have hm : m < xs.length := by
        simp only [List.length_cons] at h
        omega
      rw [ih hm]
      cases hxs : xs with
      | nil => subst hxs; simp at hm
      | cons y ys => rw [List.getLast?_cons_cons]

/-- When the stream does not end in a NUL, the nonempty trailing buffer is
the last extracted record. -/
theorem recordsGo_getLast :
    ∀ ls (buf : String), trailingBuf buf ls ≠ "" →
      (recordsGo buf ls).getLast? = some (trailingBuf buf ls) := by
  intro ls
  induction ls with
  | nil =>
    intro buf h
    unfold trailingBuf at h ⊢
    unfold recordsGo
    rw [if_pos h]
    rfl
  | cons l ls ih =>
    intro buf h
    unfold trailingBuf at h ⊢
    unfold recordsGo
    cases hsp : pySplit1 nulStr l with
    | none =>
      rw [hsp] at h
      dsimp only at h ⊢
      exact ih (buf ++ l) h
    | some p =>
      obtain ⟨pre, post⟩ := p
      rw [hsp] at h
      dsimp only at h ⊢
      have := ih post h
      cases hr : recordsGo post ls with
      | nil => rw [hr] at this; simp at this
      | cons r rs =>
        rw [hr] at this
        rw [List.getLast?_cons_cons]
        exact this

/-- C9: when the final record of the stream is not NUL-terminated (the
trailing buffer is nonempty) and the skip offset leaves at least one
record, a successful paged query ends with exactly the commit parsed from
that trailing record — NUL acts as a separator, not a required
terminator. -/
theorem c9_unterminated_final_record :
    ∀ lines offset cs,
      trailingBuf "" lines ≠ "" →
      offset < (streamRecords lines).length →
      Repo.commits lines offset = some cs →
      cs.getLast? = Commit.from_str (trailingBuf "" lines) := by
  intro lines offset cs htb hoff hcs
  rw [commits_eq_dropped_records] at hcs
  have hlast : (streamRecords lines).getLast? = some (trailingBuf "" lines) :=
    recordsGo_getLast lines "" htb
  have hlast2 : ((streamRecords lines).drop offset).getLast?
      = some (trailingBuf "" lines) := by
    rw [getLast?_drop_of_lt hoff, hlast]
  rw [mapMopt_getLast hcs hlast2]

/-- C9 (witness): a one-line stream with no NUL at all still produces its
single commit, which is the last element of the result. -/
theorem c9_witness :
    ((Repo.commits [noBodyRecord] 0).getD []).getLast?
      = Commit.from_str (trailingBuf "" [noBodyRecord]) :=
  c9_unterminated_final_record [noBodyRecord] 0
    ((Repo.commits [noBodyRecord] 0).getD []) (by decide) (by decide) (by decide)

/-- Decidable side condition for the builder claims: every option name
assigned through the field-assignment interface is a (nonempty) Python
attribute name. -/
def opsNamesOk (ops : List GitOp) : Bool :=
  ops.all (fun op => match op with
    | .set k _ => !(k == "")
    | .pos _ => true)

/-- The parameter-building fold of `GitCommand.run`, flattened. -/
theorem foldlRender_eq :
    ∀ (kws : List (String × Option GitVal)) (init : List String),
      kws.foldl (fun ps kv => ps ++ [renderKw kv.1 kv.2]) init
        = init ++ kws.map (fun kv => renderKw kv.1 kv.2) := by
  intro kws
  induction kws with
  | nil => intro init; simp
  | cons kv kws ih =>
    intro init
    rw [List.foldl_cons, ih]
    simp

/-- For a nonempty option name the code's rendering of one option agrees
with the spec's rendering rule. -/
theorem renderKw_eq_spec (k : String) (v : Option GitVal) (hk : k ≠ "") :
    renderKw k v = specOptionText k v := by
  have hlen : k.length ≠ 0 := by
    intro h0
    apply hk
    apply String.ext
    exact List.length_eq_zero.mp h0
  unfold renderKw specOptionText
  by_cases h1 : k.length = 1
  · rw [if_neg (by omega), if_pos h1]
  · rw [if_pos (by omega), if_neg h1]

/-- Running the builder interactions from any state: the subcommand is
untouched, positionals append in call order, and the option dict evolves by
ordered upsert on the hyphenated names. -/
theorem applyOps_spec :
    ∀ (ops : List GitOp) (g : GitCommand),
      (applyOps g ops).cmd = g.cmd ∧
      (applyOps g ops).args = g.args ++ specPositionals ops ∧
      (applyOps g ops).kwargs = ops.foldl
        (fun acc op => match op with
          | .set k v => setKw acc (pyReplaceChar '_' '-' k) v
          | .pos _ => acc) g.kwargs := by
  intro ops
  induction ops with
  | nil => intro g; simp [applyOps, specPositionals]
  | cons op ops ih =>
    intro g
    cases op with
    | set k v =>
      obtain ⟨h1, h2, h3⟩ := ih (g.setattr k v)
      refine ⟨h1, ?_, ?_⟩
      · rw [show applyOps g (GitOp.set k v :: ops) = applyOps (g.setattr k v) ops
            from rfl, h2]
        simp [GitCommand.setattr, specPositionals]
      · rw [show applyOps g (GitOp.set k v :: ops) = applyOps (g.setattr k v) ops
            from rfl, h3]
        rfl
    | pos a =>
      obtain ⟨h1, h2, h3⟩ := ih (g.addArg a)
      refine ⟨h1, ?_, ?_⟩
      · rw [show applyOps g (GitOp.pos a :: ops) = applyOps (g.addArg a) ops
            from rfl, h2]
        simp [GitCommand.addArg, specPositionals]
      · rw [show applyOps g (GitOp.pos a :: ops) = applyOps (g.addArg a) ops
            from rfl, h3]
        rfl

/-- Ordered-dict upsert only introduces the inserted key. -/
theorem setKw_keys :
    ∀ (acc : List (String × Option GitVal)) (k : String) (v : Option GitVal)
      (p : String × Option GitVal),
      p ∈ setKw acc k v → p.1 = k ∨ p ∈ acc := by
  intro acc
  induction acc with
  | nil =>
    intro k v p hp
    unfold setKw at hp
    simp only [List.mem_singleton] at hp
    left
    rw [hp]
  | cons kv acc ih =>
    intro k v p hp
    unfold setKw at hp
    split at hp
    · next hk =>
      rcases List.mem_cons.mp hp with h | h
      · left; rw [h, ← hk]
      · right; exact List.mem_cons_of_mem _ h
    · next hk =>
      rcases List.mem_cons.mp hp with h | h
      · right; rw [h]; exact List.mem_cons_self _ _
      · rcases ih k v p h with h' | h'
        · left; exact h'
        · right; exact List.mem_cons_of_mem _ h'

/-- Replacing characters never empties a nonempty string. -/
theorem pyReplaceChar_ne_empty (a b : Char) (s : String) (hs : s ≠ "") :
    pyReplaceChar a b s ≠ "" := by
  intro h
  apply hs
  apply String.ext
  have hd := congrArg String.data h
  have : s.data.map (fun c => if c = a then b else c) = [] := hd
  simpa using this

/-- Every key of the assignment dict built from well-named interactions is
nonempty. -/
theorem specAssignments_keys_ne :
    ∀ (ops : List GitOp) (init : List (String × Option GitVal)),
      (∀ p ∈ init, p.1 ≠ "") →
      (∀ k v, GitOp.set k v ∈ ops → k ≠ "") →
      ∀ p ∈ ops.foldl
        (fun acc op => match op with
          | .set k v => setKw acc (pyReplaceChar '_' '-' k) v
          | .pos _ => acc) init, p.1 ≠ "" := by
  intro ops
  induction ops with
  | nil => intro init hinit hops p hp; exact hinit p hp
  | cons op ops ih =>
    intro init hinit hops p hp
    cases op with
    | set k v =>
      rw [List.foldl_cons] at hp
      refine ih (setKw init (pyReplaceChar '_' '-' k) v) ?_ ?_ p hp
      · intro q hq
        rcases setKw_keys init (pyReplaceChar '_' '-' k) v q hq with h | h
        · rw [h]
          exact pyReplaceChar_ne_empty _ _ _ (hops k v (List.mem_cons_self _ _))
        · exact hinit q h
      · intro k' v' hm
        exact hops k' v' (List.mem_cons_of_mem _ hm)
    | pos a =>
      rw [List.foldl_cons] at hp
      exact ih init hinit
        (fun k' v' hm => hops k' v' (List.mem_cons_of_mem _ hm)) p hp

/-- C8: rendering a built command yields the subcommand, then one entry per
assigned option in assignment order (first assignment fixes the position,
the last assignment the value), each rendered as its name with underscores
replaced by hyphens, one leading hyphen for single-character names and two
otherwise, a bare flag for a null value and `name=value` with the value
stringified otherwise — and all options precede the positional arguments. -/
theorem c8_render_spec (cmd : String) (ops : List GitOp)
    (h : opsNamesOk ops = true) :
    (applyOps (GitCommand.init cmd) ops).runParams
      = [cmd] ++ (specAssignments ops).map (fun kv => specOptionText kv.1 kv.2)
        ++ specPositionals ops := by
  have hnames : ∀ k v, GitOp.set k v ∈ ops → k ≠ "" := by
    intro k v hm
    have := List.all_eq_true.mp h _ hm
    simpa using this
  obtain ⟨hcmd, hargs, hkw⟩ := applyOps_spec ops (GitCommand.init cmd)
  unfold GitCommand.runParams
  rw [foldlRender_eq, hcmd, hargs, hkw]
  have hkeys := specAssignments_keys_ne ops [] (by simp) hnames
  have hmap : (specAssignments ops).map (fun kv => renderKw kv.1 kv.2)
      = (specAssignments ops).map (fun kv => specOptionText kv.1 kv.2) :=
    List.map_congr_left (fun p hp => renderKw_eq_spec p.1 p.2 (hkeys p hp))
  rw [show (ops.foldl
      (fun acc op => match op with
        | .set k v => setKw acc (pyReplaceChar '_' '-' k) v
        | .pos _ => acc) (GitCommand.init cmd).kwargs) = specAssignments ops
    from rfl]
  rw [hmap]
  simp [GitCommand.init]

/-- The builder interactions of `Repo.commits`: two underscore-named valued
options, a flag, and two positional arguments. -/
def c8Ops : List GitOp :=
  [.set "max_count" (some (.int 30)), .set "header" none, .pos "HEAD",
   .pos "--"]

/-- C8 (witness): the concrete interaction sequence renders with hyphenated
double-dash options in assignment order before the positionals. -/
theorem c8_witness :
    (applyOps (GitCommand.init "rev-list") c8Ops).runParams
      = ["rev-list", "--max-count=30", "--header", "HEAD", "--"] := by
  rw [c8_render_spec "rev-list" c8Ops (by decide)]
  decide
